import Mathlib

/-!
Verification of `training/dm_resnet_train.py` from the `end2end-all-conv`
repository.  The Python `run` function and the command-line boundary of the
script are shallowly embedded as pure Lean functions; floating-point
parameters are modelled as rationals (only comparison, minimum and equality
are performed on them by the code under study), and the effects of `run`
(generator configuration, model construction, the arguments of the training
loop, the printed summary, the files written) are collected in a trace
record returned by the embedded `run`.
-/

namespace DmResnetTrain

/-- A Python number as it crosses the CLI boundary: either a float (kept as a
rational) or an int produced by `int(...)` truncation. -/
inductive PyNum where
  | pfloat (q : ℚ)
  | pint (n : ℤ)
deriving DecidableEq

/-- Embedding of line 319 of the script:
`val_size=args.val_size if args.val_size < 1 else int(args.val_size)`.
For `v ≥ 1` Python `int()` truncates toward zero, which coincides with the
floor. -/
def cliValSize (v : ℚ) : PyNum :=
  if v < 1 then PyNum.pfloat v else PyNum.pint ⌊v⌋

/-- Embedding of lines 120-127 of `run` (the `load_val_ram` size check).
`vs0` stands for `validation_set[0]`: in single-view mode the array of
validation images (each inner list one image, its length the image's first
dimension); in multi-view mode the pair `[X_left, X_right]` (each inner list
one view's sample array, its length the sample count).  The result is `true`
exactly when the Python code executes `raise Exception`.  Python indexing
`vs0[0]`/`vs0[1]` out of range would raise an `IndexError`; here the missing
entry is read as `[]`, whose length `0` likewise fails the comparison. -/
def checkValSet (multiView : Bool) (valSizeE : ℕ) (vs0 : List (List ℕ)) : Bool :=
  if !multiView && decide (vs0.length ≠ valSizeE) then true
  else if decide ((vs0.getD 0 []).length ≠ valSizeE)
       || decide ((vs0.getD 1 []).length ≠ valSizeE) then true
  else false

/-- Number of items of `l` carrying the label `c`. -/
def labCount (l : List (String × ℕ)) (c : ℕ) : ℕ :=
  (l.map Prod.snd).count c

/-- Modelled from the spec: the per-class validation quota of sklearn's
stratified `train_test_split` — the fraction `p` of the `n` items of a class,
rounded up, so that each class is represented in the validation set in
proportion `p` up to less than one sample. -/
def classQuota (p : ℚ) (l : List (String × ℕ)) (c : ℕ) : ℕ :=
  ⌈p * (labCount l c : ℚ)⌉₊

/-- Walk the labelled list, sending each item to the validation side while its
class still has quota left, and to the training side afterwards.  Returns
`(train, val)`. -/
def stratGo : List (String × ℕ) → (ℕ → ℕ) → List (String × ℕ) × List (String × ℕ)
  | [], _ => ([], [])
  | x :: rest, q =>
    if 0 < q x.2 then
      let r := stratGo rest (fun c => if c = x.2 then q c - 1 else q c)
      (r.1, x :: r.2)
    else
      let r := stratGo rest q
      (x :: r.1, r.2)

/-- Modelled from the spec: `sklearn.model_selection.train_test_split` with
`stratify` — a stratified random partition of the labelled list into a
training and a validation part, the validation part holding the fraction `p`
of each label class (rounded up).  The randomness (`random_state=random_seed`
in the source) is not modelled: the split is deterministic. -/
def stratifiedSplit (p : ℚ) (l : List (String × ℕ)) :
    List (String × ℕ) × List (String × ℕ) :=
  stratGo l (classQuota p l)

/-- The fields of `DMImageDataGenerator` that `run` touches.  Modelled from
the spec: the generator subclasses keras' `ImageDataGenerator`, whose
normalization switches start out off and whose `mean`/`std` start out unset. -/
structure DMImageDataGenerator where
  horizontal_flip : Bool
  vertical_flip : Bool
  featurewise_center : Bool
  featurewise_std_normalization : Bool
  samplewise_center : Bool
  samplewise_std_normalization : Bool
  mean : Option ℚ
  std : Option ℚ
deriving DecidableEq

/-- The generator as constructed on lines 69-71:
`DMImageDataGenerator(horizontal_flip=True, vertical_flip=True)`. -/
def initImgGen : DMImageDataGenerator :=
  ⟨true, true, false, false, false, false, none, none⟩

/-- Embedding of lines 72-79 of `run`: configure the normalization mode of the
image generator. -/
def configGen (dfn : Bool) (fm fs : ℚ) : DMImageDataGenerator :=
  if dfn then
    ⟨initImgGen.horizontal_flip, initImgGen.vertical_flip,
     true, true,
     initImgGen.samplewise_center, initImgGen.samplewise_std_normalization,
     some fm, some fs⟩
  else
    ⟨initImgGen.horizontal_flip, initImgGen.vertical_flip,
     initImgGen.featurewise_center, initImgGen.featurewise_std_normalization,
     true, true,
     initImgGen.mean, initImgGen.std⟩

/-- The Keras model object, abstracted to how `run` obtains it: loaded from a
checkpoint, built by a `ResNetBuilder` method, or wrapped by `make_parallel`. -/
inductive ModelRepr where
  | loaded (path : String)
  | built (multiView : Bool) (arch : ℕ)
  | parallel (m : ModelRepr) (gpus : ℤ)
deriving DecidableEq

/-- Whether the model graph has been replicated by `make_parallel`. -/
def ModelRepr.isParallel : ModelRepr → Bool
  | .parallel _ _ => true
  | _ => false

/-- The nine architecture names recognised by the dispatch on lines 137-193. -/
def knownNets : List String :=
  ["resnet18", "resnet34", "resnet50", "dmresnet14", "dmresnet47rb5",
   "dmresnet56rb6", "dmresnet65rb7", "resnet101", "resnet152"]

/-- Embedding of the `if net == ... / elif ...` dispatch on lines 137-193:
each recognised name calls the corresponding builder method (the method is
recorded by its position in the chain); an unrecognised name leaves the
Python variable `model` unassigned, here `none`. -/
def buildModel (mv : Bool) (net : String) : Option ModelRepr :=
  if net = "resnet18" then some (ModelRepr.built mv 0)
  else if net = "resnet34" then some (ModelRepr.built mv 1)
  else if net = "resnet50" then some (ModelRepr.built mv 2)
  else if net = "dmresnet14" then some (ModelRepr.built mv 3)
  else if net = "dmresnet47rb5" then some (ModelRepr.built mv 4)
  else if net = "dmresnet56rb6" then some (ModelRepr.built mv 5)
  else if net = "dmresnet65rb7" then some (ModelRepr.built mv 6)
  else if net = "resnet101" then some (ModelRepr.built mv 7)
  else if net = "resnet152" then some (ModelRepr.built mv 8)
  else none

/-- The per-epoch histories that `model.fit_generator` returns in
`hist.history`; one entry per completed epoch. -/
structure History where
  val_loss : List ℚ
  val_sensitivity : List ℚ
  val_specificity : List ℚ
deriving DecidableEq

/-- The figures printed by the training report on lines 224-229. -/
structure Summary where
  bestEpoch : ℕ
  bestValLoss : ℚ
  bestValSens : ℚ
  bestValSpec : ℚ
deriving DecidableEq

/-- Python `min` over a nonempty sequence (`min(hist.history['val_loss'])` on
line 221); `none` stands for the `ValueError` Python raises on an empty one. -/
def listMin : List ℚ → Option ℚ
  | [] => none
  | x :: xs => some (xs.foldl min x)

/-- Embedding of
`min_loss_locs, = np.where(hist.history['val_loss'] == min(...))` on
line 221: the indices at which the loss history equals its minimum, in
increasing order. -/
def minLossLocs (vl : List ℚ) : Option (List ℕ) :=
  match listMin vl with
  | none => none
  | some m => some ((List.range vl.length).filter fun i => decide (vl.getD i 0 = m))

/-- Embedding of the training report, lines 221-229: the first index of
minimal `val_loss` selects the reported epoch (printed one-based) and the
reported loss, sensitivity and specificity.  `none` models the Python errors
on an empty history (`ValueError` from `min`) or an out-of-range index
(`IndexError`). -/
def trainingSummary (h : History) : Option Summary :=
  match minLossLocs h.val_loss with
  | none => none
  | some locs =>
    match locs.head? with
    | none => none
    | some i =>
      match h.val_loss.get? i, h.val_sensitivity.get? i, h.val_specificity.get? i with
      | some l, some s, some p => some ⟨i + 1, l, s, p⟩
      | _, _, _ => none

/-- The environment variables read on lines 47-49; `none` means unset, in
which case the documented default applies. -/
structure Env where
  RANDOM_SEED : Option ℤ
  NUM_CPU_CORES : Option ℤ
  NUM_GPU_DEVICES : Option ℤ
deriving DecidableEq

/-- The arguments of `run` that the claims under study depend on.  Arguments
that are merely forwarded to the builders or to keras (image size, dropout
rates, learning-rate schedule, ...) are omitted. -/
structure RunConfig where
  multi_view : Bool
  do_featurewise_norm : Bool
  featurewise_mean : ℚ
  featurewise_std : ℚ
  pos_cls_weight : ℚ
  val_size : PyNum
  resume_from : Option String
  net : String
  load_val_ram : Bool
  best_model : String
  final_model : String
deriving DecidableEq

/-- The data the `DMMetaManager` delivers: the flattened exam list (with the
exam labels `exam_labs` attaches to it) and the flattened image list with its
label list, both modelled as lists of labelled items. -/
structure DMMeta where
  exams : List (String × ℕ)
  imgs : List (String × ℕ)
deriving DecidableEq

/-- The arguments of the `model.fit_generator` call on lines 207-218 that the
claims mention: the `class_weight` dictionary (as an association list) and
`nb_val_samples`. -/
structure FitArgs where
  classWeight : List (ℕ × ℚ)
  nbValSamples : ℕ
deriving DecidableEq

/-- The observable effects of one successful `run`. -/
structure RunTrace where
  gen : DMImageDataGenerator
  valSizeE : ℕ
  examVal : List (String × ℕ)
  imgVal : List (String × ℕ)
  modelBuilt : ModelRepr
  modelCompiled : ModelRepr
  fit : FitArgs
  summary : Summary
  savedFinal : Option String
  aucBestPath : String
deriving DecidableEq

/-- The ways the embedded `run` can terminate exceptionally. -/
inductive RunErr where
  | valCheck
  | unknownNet
  | histErr
deriving DecidableEq

/-- The `test_size` argument handed to `train_test_split`, as a fraction of
the `n` items being split: a float is the fraction itself, an int an absolute
validation count. -/
def pyNumFrac (v : PyNum) (n : ℕ) : ℚ :=
  match v with
  | .pfloat q => q
  | .pint k => (k : ℚ) / (n : ℚ)

/-- The validation exam list produced by the split on lines 56-59
(`exam_train, exam_val = train_test_split(...)`). -/
def examValOf (cfg : RunConfig) (meta : DMMeta) : List (String × ℕ) :=
  (stratifiedSplit (pyNumFrac cfg.val_size meta.exams.length) meta.exams).2

/-- The validation image list produced by the split on lines 62-65
(`img_train, img_val, lab_train, lab_val = train_test_split(...)`). -/
def imgValOf (cfg : RunConfig) (meta : DMMeta) : List (String × ℕ) :=
  (stratifiedSplit (pyNumFrac cfg.val_size meta.imgs.length) meta.imgs).2

/-- `val_size_` as computed on lines 60 and 66: `len(exam_val)*2` (L and R)
in multi-view mode, `len(img_val)` otherwise. -/
def runValSizeE (cfg : RunConfig) (meta : DMMeta) : ℕ :=
  if cfg.multi_view then 2 * (examValOf cfg meta).length
  else (imgValOf cfg meta).length

/-- `gpu_count = int(os.getenv('NUM_GPU_DEVICES', 1))`, line 49. -/
def gpuCountOf (env : Env) : ℤ :=
  env.NUM_GPU_DEVICES.getD 1

/-- The model before the `make_parallel` step: loaded from `resume_from` when
given (lines 131-138), otherwise built by the architecture dispatch. -/
def model0Of (cfg : RunConfig) : Option ModelRepr :=
  match cfg.resume_from with
  | some p => some (ModelRepr.loaded p)
  | none => buildModel cfg.multi_view cfg.net

/-- The trace of effects of a successful `run`. -/
def mkTrace (cfg : RunConfig) (env : Env) (meta : DMMeta) (m0 : ModelRepr)
    (s : Summary) : RunTrace :=
  ⟨configGen cfg.do_featurewise_norm cfg.featurewise_mean cfg.featurewise_std,
   runValSizeE cfg meta, examValOf cfg meta, imgValOf cfg meta, m0,
   (if 1 < gpuCountOf env then ModelRepr.parallel m0 (gpuCountOf env) else m0),
   ⟨[(0, (1 : ℚ)), (1, cfg.pos_cls_weight)], runValSizeE cfg meta⟩, s,
   (if cfg.final_model = "NOSAVE" then none else some cfg.final_model),
   cfg.best_model⟩

/-- Shallow embedding of `run` (lines 25-234 of
`training/dm_resnet_train.py`).  Beyond the configuration, it takes the
environment, the metadata lists, the batch `validation_set[0]` that
`next(val_generator)` would deliver under `load_val_ram`, and the history
that `model.fit_generator` would return; it yields the trace of effects, or
the error the Python code would raise on the way. -/
def run (cfg : RunConfig) (env : Env) (meta : DMMeta) (valBatch : List (List ℕ))
    (hist : History) : Except RunErr RunTrace :=
  if cfg.load_val_ram && checkValSet cfg.multi_view (runValSizeE cfg meta) valBatch then
    Except.error RunErr.valCheck
  else
    match model0Of cfg with
    | none => Except.error RunErr.unknownNet
    | some m0 =>
      match trainingSummary hist with
      | none => Except.error RunErr.histErr
      | some s => Except.ok (mkTrace cfg env meta m0 s)

/-- `i` is the first index at which `l` attains its minimum: it is in range,
no entry is smaller, and every earlier entry is strictly larger. -/
def IsFirstMinIdx (l : List ℚ) (i : ℕ) : Prop :=
  i < l.length ∧
  (∀ j, j < l.length → l.getD i 0 ≤ l.getD j 0) ∧
  (∀ j, j < i → l.getD i 0 < l.getD j 0)

/-- A placeholder trace, used only to give `getOk` a total type. -/
def dummyTrace : RunTrace :=
  ⟨initImgGen, 0, [], [], ModelRepr.loaded "", ModelRepr.loaded "",
   ⟨[], 0⟩, ⟨0, 0, 0, 0⟩, none, ""⟩

/-- Extract the trace of a successful run. -/
def getOk : Except RunErr RunTrace → RunTrace
  | .ok t => t
  | .error _ => dummyTrace

/-- A concrete single-view configuration used to exercise the theorems. -/
def cfgW : RunConfig :=
  ⟨false, true, 5/2, 7/2, 3/2, PyNum.pfloat (1/2), none, "resnet50", false,
   "best.h5", "final.h5"⟩

/-- A concrete configuration with an unrecognised architecture name. -/
def cfgBad : RunConfig :=
  ⟨false, true, 5/2, 7/2, 3/2, PyNum.pfloat (1/2), none, "vgg16", false,
   "best.h5", "final.h5"⟩

/-- A concrete environment: two GPUs. -/
def envW : Env := ⟨some 777, some 2, some 2⟩

/-- Concrete metadata: four exams and four images, two of each label. -/
def metaW : DMMeta :=
  ⟨[("e1", 0), ("e2", 0), ("e3", 1), ("e4", 1)],
   [("i1", 0), ("i2", 0), ("i3", 1), ("i4", 1)]⟩

/-- A concrete validation batch (unused when `load_val_ram` is off). -/
def vbW : List (List ℕ) := []

/-- A concrete three-epoch history whose loss is minimal at epoch 2. -/
def histW : History :=
  ⟨[3, 1, 2], [11/10, 12/10, 13/10], [21/10, 22/10, 23/10]⟩

/-- The trace of the concrete run. -/
def trW : RunTrace := getOk (run cfgW envW metaW vbW histW)

theorem buildModel_not_parallel (mv : Bool) (net : String) (m : ModelRepr)
    (h : buildModel mv net = some m) : m.isParallel = false := by
  unfold buildModel at h
  split_ifs at h <;> injection h with h <;> subst h <;> rfl

theorem run_ok_elim (cfg : RunConfig) (env : Env) (meta : DMMeta)
    (vb : List (List ℕ)) (hist : History) (tr : RunTrace)
    (h : run cfg env meta vb hist = Except.ok tr) :
    ∃ m0 s, model0Of cfg = some m0 ∧ trainingSummary hist = some s ∧
      tr = mkTrace cfg env meta m0 s := by
  simp only [run] at h
  split at h
  · exact absurd h (by simp)
  · split at h
    · exact absurd h (by simp)
    · next m0 hm =>
      split at h
      · exact absurd h (by simp)
      · next s hs =>
        injection h with h
        exact ⟨m0, s, hm, hs, h.symm⟩

/-- C1: in single-view mode (`multi_view = False`) with `load_val_ram`, the
size check of lines 120-127 raises the generic `Exception` even on a
preloaded validation batch that does match the expected count: with
`val_size_ = 2` and a batch of exactly 2 images the `elif` branch that was
written for the multi-view pair `[X_left, X_right]` is still evaluated, reads
the first image's own length, and raises.  The first conjunct records that
the batch size does match; the second that the code raises anyway. -/
theorem checkValSet_single_view_bug :
    ([[0], [0]] : List (List ℕ)).length = 2 ∧
    checkValSet false 2 [[0], [0]] = true := by
  constructor
  · rfl
  · rfl

/-- C10: at the command-line boundary (line 319), a `val_size` below 1 is
forwarded to `run` unchanged as a float fraction, while a `val_size` of 1 or
more is truncated to an integer absolute count; in particular `1.0` becomes
the integer `1`. -/
theorem cliValSize_spec (v : ℚ) :
    (v < 1 → cliValSize v = PyNum.pfloat v) ∧
    (1 ≤ v → cliValSize v = PyNum.pint ⌊v⌋) ∧
    cliValSize 1 = PyNum.pint 1 := by
  refine ⟨fun hv => ?_, fun hv => ?_, ?_⟩
  · simp [cliValSize, hv]
  · simp [cliValSize, not_lt.mpr hv]
  · simp [cliValSize]

/-- Witness for C10 at `v = 3/2` and `v = 1/5`. -/
theorem cliValSize_spec_witness :
    cliValSize (3/2) = PyNum.pint ⌊(3/2 : ℚ)⌋ ∧
    cliValSize (1/5) = PyNum.pfloat (1/5) :=
  ⟨(cliValSize_spec (3/2)).2.1 (by norm_num),
   (cliValSize_spec (1/5)).1 (by norm_num)⟩

/-- C9: with `resume_from` unset, the dispatch of lines 130-194 produces a
model exactly for the nine recognised architecture names; for any other name
the `model` variable is never assigned, and `run` fails at its first use
(there is no default architecture and no explicit error branch). -/
theorem buildModel_dispatch_spec :
    (∀ (mv : Bool) (net : String),
      (buildModel mv net).isSome = true ↔ net ∈ knownNets) ∧
    (∀ (cfg : RunConfig) (env : Env) (meta : DMMeta) (vb : List (List ℕ))
       (hist : History),
      cfg.resume_from = none → cfg.load_val_ram = false → cfg.net ∉ knownNets →
      run cfg env meta vb hist = Except.error RunErr.unknownNet) := by
  have hbm : ∀ (mv : Bool) (net : String),
      (buildModel mv net).isSome = true ↔ net ∈ knownNets := by
    intro mv net
    unfold buildModel knownNets
    split_ifs <;> simp_all
  refine ⟨hbm, fun cfg env meta vb hist hres hlvr hnet => ?_⟩
  have hnone : buildModel cfg.multi_view cfg.net = none := by
    rw [← hbm cfg.multi_view cfg.net] at hnet
    exact Option.not_isSome_iff_eq_none.mp (by simpa using hnet)
  simp [run, hlvr, model0Of, hres, hnone]

/-- Witness for C9: `resnet50` is dispatched, `vgg16` makes `run` fail. -/
theorem buildModel_dispatch_witness :
    (buildModel false "resnet50").isSome = true ∧
    run cfgBad envW metaW vbW histW = Except.error RunErr.unknownNet :=
  ⟨(buildModel_dispatch_spec.1 false "resnet50").mpr (by decide),
   buildModel_dispatch_spec.2 cfgBad envW metaW vbW histW rfl rfl (by decide)⟩

/-- C2: on a successful run, `val_size_` is twice the validation exam count
in multi-view mode and the validation image count otherwise, and exactly this
value is passed as `nb_val_samples` to `model.fit_generator`. -/
theorem run_val_size_spec (cfg : RunConfig) (env : Env) (meta : DMMeta)
    (vb : List (List ℕ)) (hist : History) (tr : RunTrace)
    (h : run cfg env meta vb hist = Except.ok tr) :
    tr.valSizeE = (if cfg.multi_view then 2 * tr.examVal.length
                   else tr.imgVal.length) ∧
    tr.fit.nbValSamples = tr.valSizeE := by
  obtain ⟨m0, s, hm, hs, htr⟩ := run_ok_elim cfg env meta vb hist tr h
  subst htr
  exact ⟨rfl, rfl⟩

/-- Witness for C2 on the concrete single-view run. -/
theorem run_val_size_witness :
    trW.valSizeE = (if cfgW.multi_view then 2 * trW.examVal.length
                    else trW.imgVal.length) ∧
    trW.fit.nbValSamples = trW.valSizeE :=
  run_val_size_spec cfgW envW metaW vbW histW trW rfl

/-- C4: on a successful run, the compiled model is the `make_parallel`
replication of the built model exactly when the GPU count read from
`NUM_GPU_DEVICES` (default 1) exceeds 1; otherwise the unreplicated model is
the one compiled. -/
theorem run_gpu_spec (cfg : RunConfig) (env : Env) (meta : DMMeta)
    (vb : List (List ℕ)) (hist : History) (tr : RunTrace)
    (h : run cfg env meta vb hist = Except.ok tr) :
    (tr.modelCompiled.isParallel = true ↔ 1 < gpuCountOf env) ∧
    (1 < gpuCountOf env →
      tr.modelCompiled = ModelRepr.parallel tr.modelBuilt (gpuCountOf env)) ∧
    (¬ 1 < gpuCountOf env → tr.modelCompiled = tr.modelBuilt) := by
  obtain ⟨m0, s, hm, hs, htr⟩ := run_ok_elim cfg env meta vb hist tr h
  subst htr
  have hnp : m0.isParallel = false := by
    unfold model0Of at hm
    cases hre : cfg.resume_from with
    | some p =>
      rw [hre] at hm
      injection hm with hm
      subst hm
      rfl
    | none =>
      rw [hre] at hm
      exact buildModel_not_parallel _ _ _ hm
  by_cases hg : 1 < gpuCountOf env
  · refine ⟨?_, fun _ => ?_, fun hng => absurd hg hng⟩
    · simp [mkTrace, hg, ModelRepr.isParallel]
    · simp [mkTrace, hg]
  · refine ⟨?_, fun hgg => absurd hgg hg, fun _ => ?_⟩
    · simp [mkTrace, hg, hnp]
    · simp [mkTrace, hg]

/-- Witness for C4 on the concrete run with two GPUs. -/
theorem run_gpu_witness :
    trW.modelCompiled = ModelRepr.parallel trW.modelBuilt (gpuCountOf envW) :=
  (run_gpu_spec cfgW envW metaW vbW histW trW rfl).2.1 (by decide)

/-- C5: on a successful run, the final model is saved exactly when
`final_model` differs from the sentinel `"NOSAVE"` (and then to that path),
while the best-model path is handed to the AUC checkpoint callback
unconditionally. -/
theorem run_final_save_spec (cfg : RunConfig) (env : Env) (meta : DMMeta)
    (vb : List (List ℕ)) (hist : History) (tr : RunTrace)
    (h : run cfg env meta vb hist = Except.ok tr) :
    (tr.savedFinal.isSome = true ↔ cfg.final_model ≠ "NOSAVE") ∧
    (cfg.final_model ≠ "NOSAVE" → tr.savedFinal = some cfg.final_model) ∧
    tr.aucBestPath = cfg.best_model := by
  obtain ⟨m0, s, hm, hs, htr⟩ := run_ok_elim cfg env meta vb hist tr h
  subst htr
  by_cases hf : cfg.final_model = "NOSAVE" <;> simp [mkTrace, hf]

/-- Witness for C5 on the concrete run, whose `final_model` is `final.h5`. -/
theorem run_final_save_witness :
    trW.savedFinal = some cfgW.final_model ∧ trW.aucBestPath = cfgW.best_model :=
  ⟨(run_final_save_spec cfgW envW metaW vbW histW trW rfl).2.1 (by decide),
   (run_final_save_spec cfgW envW metaW vbW histW trW rfl).2.2⟩

/-- C6: on a successful run, the `class_weight` dictionary passed to
`model.fit_generator` has keys exactly 0 and 1, key 0 mapped to 1.0 and key 1
mapped to `pos_cls_weight`. -/
theorem run_class_weight_spec (cfg : RunConfig) (env : Env) (meta : DMMeta)
    (vb : List (List ℕ)) (hist : History) (tr : RunTrace)
    (h : run cfg env meta vb hist = Except.ok tr) :
    tr.fit.classWeight.map Prod.fst = [0, 1] ∧
    tr.fit.classWeight.lookup 0 = some 1 ∧
    tr.fit.classWeight.lookup 1 = some cfg.pos_cls_weight := by
  obtain ⟨m0, s, hm, hs, htr⟩ := run_ok_elim cfg env meta vb hist tr h
  subst htr
  exact ⟨rfl, rfl, rfl⟩

/-- Witness for C6 on the concrete run. -/
theorem run_class_weight_witness :
    trW.fit.classWeight.map Prod.fst = [0, 1] ∧
    trW.fit.classWeight.lookup 0 = some 1 ∧
    trW.fit.classWeight.lookup 1 = some cfgW.pos_cls_weight :=
  run_class_weight_spec cfgW envW metaW vbW histW trW rfl

/-- C8: on a successful run, `do_featurewise_norm = True` configures the
image generator for featurewise centering and standard-deviation
normalization with the fixed global `featurewise_mean`/`featurewise_std`,
while `do_featurewise_norm = False` configures samplewise centering and
standard-deviation normalization and leaves no fixed mean or std set. -/
theorem run_featurewise_norm_spec (cfg : RunConfig) (env : Env) (meta : DMMeta)
    (vb : List (List ℕ)) (hist : History) (tr : RunTrace)
    (h : run cfg env meta vb hist = Except.ok tr) :
    tr.gen.featurewise_center = cfg.do_featurewise_norm ∧
    tr.gen.featurewise_std_normalization = cfg.do_featurewise_norm ∧
    tr.gen.samplewise_center = !cfg.do_featurewise_norm ∧
    tr.gen.samplewise_std_normalization = !cfg.do_featurewise_norm ∧
    tr.gen.mean = (if cfg.do_featurewise_norm then some cfg.featurewise_mean
                   else none) ∧
    tr.gen.std = (if cfg.do_featurewise_norm then some cfg.featurewise_std
                  else none) := by
  obtain ⟨m0, s, hm, hs, htr⟩ := run_ok_elim cfg env meta vb hist tr h
  subst htr
  cases hd : cfg.do_featurewise_norm <;> simp [mkTrace, configGen, initImgGen, hd]

/-- Witness for C8 on the concrete run (featurewise normalization on). -/
theorem run_featurewise_norm_witness :
    trW.gen.featurewise_center = cfgW.do_featurewise_norm ∧
    trW.gen.featurewise_std_normalization = cfgW.do_featurewise_norm ∧
    trW.gen.samplewise_center = !cfgW.do_featurewise_norm ∧
    trW.gen.samplewise_std_normalization = !cfgW.do_featurewise_norm ∧
    trW.gen.mean = (if cfgW.do_featurewise_norm then some cfgW.featurewise_mean
                    else none) ∧
    trW.gen.std = (if cfgW.do_featurewise_norm then some cfgW.featurewise_std
                   else none) :=
  run_featurewise_norm_spec cfgW envW metaW vbW histW trW rfl

theorem foldl_min_le_init (xs : List ℚ) : ∀ x : ℚ, xs.foldl min x ≤ x := by
  induction xs with
  | nil => intro x; exact le_refl x
  | cons a t ih => intro x; exact le_trans (ih (min x a)) (min_le_left x a)

theorem foldl_min_le_mem (xs : List ℚ) : ∀ x y, y ∈ xs → xs.foldl min x ≤ y := by
  induction xs with
  | nil => intro x y hy; cases hy
  | cons a t ih =>
    intro x y hy
    rcases List.mem_cons.mp hy with rfl | hy'
    · exact le_trans (foldl_min_le_init t (min x y)) (min_le_right x y)
    · exact ih (min x a) y hy'

theorem foldl_min_mem (xs : List ℚ) :
    ∀ x, xs.foldl min x = x ∨ xs.foldl min x ∈ xs := by
  induction xs with
  | nil => intro x; exact Or.inl rfl
  | cons a t ih =>
    intro x
    rcases ih (min x a) with h | h
    · rcases min_choice x a with hc | hc
      · exact Or.inl (h.trans hc)
      · exact Or.inr (List.mem_cons.mpr (Or.inl (h.trans hc)))
    · exact Or.inr (List.mem_cons.mpr (Or.inr h))

theorem listMin_mem_le (l : List ℚ) (m : ℚ) (h : listMin l = some m) :
    m ∈ l ∧ ∀ y ∈ l, m ≤ y := by
  cases l with
  | nil => cases h
  | cons x xs =>
    injection h with h
    subst h
    constructor
    · rcases foldl_min_mem xs x with h | h
      · exact List.mem_cons.mpr (Or.inl h)
      · exact List.mem_cons.mpr (Or.inr h)
    · intro y hy
      rcases List.mem_cons.mp hy with rfl | hy'
      · exact foldl_min_le_init xs y
      · exact foldl_min_le_mem xs x y hy'

theorem head_filter_range (p : ℕ → Bool) (n i : ℕ)
    (h : ((List.range n).filter p).head? = some i) :
    p i = true ∧ i < n ∧ ∀ j, j < i → p j = false := by
  induction n with
  | zero => simp at h
  | succ k ih =>
    rw [List.range_succ, List.filter_append] at h
    cases hfk : (List.range k).filter p with
    | nil =>
      rw [hfk, List.nil_append] at h
      by_cases hpk : p k = true
      · rw [List.filter_cons_of_pos hpk] at h
        injection h with h
        subst h
        refine ⟨hpk, Nat.lt_succ_self _, fun j hj => ?_⟩
        by_contra hpj
        have hjf : j ∈ List.filter p (List.range _) :=
          List.mem_filter.mpr ⟨List.mem_range.mpr hj, by simpa using hpj⟩
        rw [hfk] at hjf
        cases hjf
      · rw [List.filter_cons_of_neg hpk, List.filter_nil] at h
        cases h
    | cons b t =>
      rw [hfk] at h
      have hh : ((List.range k).filter p).head? = some i := by
        rw [hfk]
        simpa using h
      obtain ⟨h1, h2, h3⟩ := ih hh
      exact ⟨h1, Nat.lt_succ_of_lt h2, h3⟩

theorem minLossLocs_head_isFirstMin (l : List ℚ) (locs : List ℕ) (i : ℕ)
    (hlocs : minLossLocs l = some locs) (hhead : locs.head? = some i) :
    IsFirstMinIdx l i := by
  unfold minLossLocs at hlocs
  cases hm : listMin l with
  | none => rw [hm] at hlocs; cases hlocs
  | some m =>
    rw [hm] at hlocs
    injection hlocs with hlocs
    subst hlocs
    obtain ⟨hmem, hle⟩ := listMin_mem_le l m hm
    obtain ⟨h1, h2, h3⟩ := head_filter_range _ _ _ hhead
    have hi : l.getD i 0 = m := of_decide_eq_true h1
    refine ⟨h2, fun j hj => ?_, fun j hj => ?_⟩
    · rw [hi, List.getD_eq_getElem l 0 hj]
      exact hle _ (List.getElem_mem hj)
    · have hjl : j < l.length := lt_trans hj h2
      have hne : l.getD j 0 ≠ m := by
        intro he
        have := h3 j hj
        rw [decide_eq_false_iff_not] at this
        exact this he
      have hlem : m ≤ l.getD j 0 := by
        rw [List.getD_eq_getElem l 0 hjl]
        exact hle _ (List.getElem_mem hjl)
      rw [hi]
      exact lt_of_le_of_ne hlem (fun he => hne he.symm)

theorem isFirstMinIdx_unique (l : List ℚ) (i i' : ℕ)
    (h : IsFirstMinIdx l i) (h' : IsFirstMinIdx l i') : i = i' := by
  obtain ⟨hi, hle, hlt⟩ := h
  obtain ⟨hi', hle', hlt'⟩ := h'
  rcases lt_trichotomy i i' with hc | hc | hc
  · exact absurd (hle i' hi') (not_le.mpr (hlt' i hc))
  · exact hc
  · exact absurd (hle' i hi) (not_le.mpr (hlt i' hc))

theorem minLossLocs_head_exists (l : List ℚ) (hne : l ≠ []) :
    ∃ locs i, minLossLocs l = some locs ∧ locs.head? = some i := by
  obtain ⟨x, xs, rfl⟩ := List.exists_cons_of_ne_nil hne
  have hmin : listMin (x :: xs) = some (xs.foldl min x) := rfl
  obtain ⟨hmem, hle⟩ := listMin_mem_le _ _ hmin
  obtain ⟨n, hn, hget⟩ := List.mem_iff_getElem.mp hmem
  have hloc : minLossLocs (x :: xs) =
      some ((List.range (x :: xs).length).filter
        fun i => decide ((x :: xs).getD i 0 = xs.foldl min x)) := by
    unfold minLossLocs
    rw [hmin]
  have hmemf : n ∈ (List.range (x :: xs).length).filter
      fun i => decide ((x :: xs).getD i 0 = xs.foldl min x) := by
    refine List.mem_filter.mpr ⟨List.mem_range.mpr hn, ?_⟩
    rw [decide_eq_true_iff]
    rw [List.getD_eq_getElem _ 0 hn]
    exact hget
  cases hfl : (List.range (x :: xs).length).filter
      fun i => decide ((x :: xs).getD i 0 = xs.foldl min x) with
  | nil => rw [hfl] at hmemf; cases hmemf
  | cons b t =>
    refine ⟨_, b, hloc, ?_⟩
    rw [hfl]
    rfl

/-- C3: the training report of lines 220-229 picks the first index at which
the validation loss attains its minimum (such an index exists for every
non-empty loss history and is unique), reports the best epoch as that index
plus one, and reports the loss, sensitivity and specificity values found at
that same index. -/
theorem trainingSummary_spec :
    (∀ l : List ℚ, l ≠ [] → ∃ i, IsFirstMinIdx l i) ∧
    (∀ (h : History) (i : ℕ), IsFirstMinIdx h.val_loss i →
      h.val_loss.length ≤ h.val_sensitivity.length →
      h.val_loss.length ≤ h.val_specificity.length →
      trainingSummary h = some ⟨i + 1, h.val_loss.getD i 0,
        h.val_sensitivity.getD i 0, h.val_specificity.getD i 0⟩) := by
  constructor
  · intro l hne
    obtain ⟨locs, i, hlocs, hhead⟩ := minLossLocs_head_exists l hne
    exact ⟨i, minLossLocs_head_isFirstMin l locs i hlocs hhead⟩
  · intro h i hfm hs hp
    have hne : h.val_loss ≠ [] := by
      intro he
      rw [he] at hfm
      exact absurd hfm.1 (by simp)
    obtain ⟨locs, i0, hlocs, hhead⟩ := minLossLocs_head_exists h.val_loss hne
    have hfm0 : IsFirstMinIdx h.val_loss i0 :=
      minLossLocs_head_isFirstMin h.val_loss locs i0 hlocs hhead
    obtain rfl : i = i0 := isFirstMinIdx_unique h.val_loss i i0 hfm hfm0
    have hil : i < h.val_loss.length := hfm.1
    have hg1 : h.val_loss.get? i = some (h.val_loss.getD i 0) := by
      rw [List.getD_eq_getElem _ 0 hil]
      exact List.get?_eq_get hil
    have hg2 : h.val_sensitivity.get? i = some (h.val_sensitivity.getD i 0) := by
      have hil2 : i < h.val_sensitivity.length := lt_of_lt_of_le hil hs
      rw [List.getD_eq_getElem _ 0 hil2]
      exact List.get?_eq_get hil2
    have hg3 : h.val_specificity.get? i = some (h.val_specificity.getD i 0) := by
      have hil3 : i < h.val_specificity.length := lt_of_lt_of_le hil hp
      rw [List.getD_eq_getElem _ 0 hil3]
      exact List.get?_eq_get hil3
    unfold trainingSummary
    simp only [hlocs, hhead, hg1, hg2, hg3]

/-- Witness for C3 on the concrete history `[3, 1, 2]`, whose first minimal
loss sits at index 1, reported as epoch 2. -/
theorem trainingSummary_spec_witness :
    trainingSummary histW = some ⟨1 + 1, histW.val_loss.getD 1 0,
      histW.val_sensitivity.getD 1 0, histW.val_specificity.getD 1 0⟩ :=
  trainingSummary_spec.2 histW 1 (by
    refine ⟨by decide, ?_, ?_⟩ <;> decide) (by decide) (by decide)

theorem labCount_cons (x : String × ℕ) (t : List (String × ℕ)) (c : ℕ) :
    labCount (x :: t) c = labCount t c + (if x.2 = c then 1 else 0) := by
  unfold labCount
  simp [List.count_cons]

theorem stratGo_perm (l : List (String × ℕ)) :
    ∀ q : ℕ → ℕ, ((stratGo l q).1 ++ (stratGo l q).2).Perm l := by
  induction l with
  | nil => intro q; simp [stratGo]
  | cons x rest ih =>
    intro q
    by_cases hq : 0 < q x.2
    · have h12 : (stratGo (x :: rest) q).1 =
          (stratGo rest (fun c => if c = x.2 then q c - 1 else q c)).1 ∧
          (stratGo (x :: rest) q).2 =
          x :: (stratGo rest (fun c => if c = x.2 then q c - 1 else q c)).2 := by
        rw [stratGo]
        simp [hq]
      rw [h12.1, h12.2]
      exact List.perm_middle.trans ((ih _).cons x)
    · have h12 : (stratGo (x :: rest) q).1 = x :: (stratGo rest q).1 ∧
          (stratGo (x :: rest) q).2 = (stratGo rest q).2 := by
        rw [stratGo]
        simp [hq]
      rw [h12.1, h12.2]
      simpa using (ih q).cons x

theorem stratGo_labCount (l : List (String × ℕ)) :
    ∀ (q : ℕ → ℕ) (c : ℕ),
      labCount (stratGo l q).2 c = min (q c) (labCount l c) := by
  induction l with
  | nil => intro q c; simp [stratGo, labCount]
  | cons x rest ih =>
    intro q c
    by_cases hq : 0 < q x.2
    · have h2 : (stratGo (x :: rest) q).2 =
          x :: (stratGo rest (fun c' => if c' = x.2 then q c' - 1 else q c')).2 := by
        rw [stratGo]
        simp [hq]
      rw [h2, labCount_cons, ih, labCount_cons]
      by_cases hc : x.2 = c
      · subst hc
        simp only [if_pos rfl, eq_self_iff_true, if_true]
        omega
      · have hc' : ¬ c = x.2 := fun he => hc he.symm
        simp only [if_neg hc, if_neg hc']
        omega
    · have h2 : (stratGo (x :: rest) q).2 = (stratGo rest q).2 := by
        rw [stratGo]
        simp [hq]
      rw [h2, ih, labCount_cons]
      by_cases hc : x.2 = c
      · subst hc
        have hq0 : q x.2 = 0 := Nat.eq_zero_of_not_pos hq
        simp only [if_pos rfl, hq0]
        omega
      · simp only [if_neg hc]
        omega

theorem stratifiedSplit_labCount (p : ℚ) (l : List (String × ℕ)) (c : ℕ)
    (hp1 : p ≤ 1) :
    labCount (stratifiedSplit p l).2 c = ⌈p * (labCount l c : ℚ)⌉₊ := by
  unfold stratifiedSplit
  rw [stratGo_labCount]
  unfold classQuota
  apply min_eq_left
  calc ⌈p * (labCount l c : ℚ)⌉₊
      ≤ ⌈((labCount l c : ℕ) : ℚ)⌉₊ :=
        Nat.ceil_mono (mul_le_of_le_one_left (Nat.cast_nonneg _) hp1)
    _ = labCount l c := Nat.ceil_natCast _

theorem labCount_binary_length (l : List (String × ℕ))
    (hb : ∀ x ∈ l, x.2 = 0 ∨ x.2 = 1) :
    l.length = labCount l 0 + labCount l 1 := by
  induction l with
  | nil => simp [labCount]
  | cons x t ih =>
    have hx := hb x (List.mem_cons_self x t)
    have ht : ∀ y ∈ t, y.2 = 0 ∨ y.2 = 1 :=
      fun y hy => hb y (List.mem_cons_of_mem x hy)
    rw [List.length_cons, ih ht, labCount_cons, labCount_cons]
    rcases hx with h0 | h1
    · rw [h0]
      have e1 : (if (0 : ℕ) = 0 then 1 else 0) = 1 := rfl
      have e2 : (if (0 : ℕ) = 1 then 1 else 0) = 0 := rfl
      rw [e1, e2]
      omega
    · rw [h1]
      have e1 : (if (1 : ℕ) = 0 then 1 else 0) = 0 := rfl
      have e2 : (if (1 : ℕ) = 1 then 1 else 0) = 1 := rfl
      rw [e1, e2]
      omega

/-- C7 (the split model is modelled from the spec; sklearn's
`train_test_split` is external to this repository): the stratified split is a
partition — the training and validation parts together are a permutation of
the input list; for each label class the validation part holds the fraction
`p` of that class's items to within strictly less than one item; and, for
binary labels (the script trains with `class_mode='binary'`), the validation
size is the fraction `p` of the whole list to within strictly less than one
item per class. -/
theorem stratifiedSplit_spec (p : ℚ) (l : List (String × ℕ))
    (hp0 : 0 ≤ p) (hp1 : p ≤ 1) :
    ((stratifiedSplit p l).1 ++ (stratifiedSplit p l).2).Perm l ∧
    (∀ c : ℕ,
      p * (labCount l c : ℚ) ≤ (labCount (stratifiedSplit p l).2 c : ℚ) ∧
      (labCount (stratifiedSplit p l).2 c : ℚ) < p * (labCount l c : ℚ) + 1) ∧
    ((∀ x ∈ l, x.2 = 0 ∨ x.2 = 1) →
      p * (l.length : ℚ) ≤ ((stratifiedSplit p l).2.length : ℚ) ∧
      ((stratifiedSplit p l).2.length : ℚ) < p * (l.length : ℚ) + 2) := by
  have hperm : ((stratifiedSplit p l).1 ++ (stratifiedSplit p l).2).Perm l :=
    stratGo_perm l (classQuota p l)
  refine ⟨hperm, fun c => ?_, fun hb => ?_⟩
  · rw [stratifiedSplit_labCount p l c hp1]
    exact ⟨Nat.le_ceil _,
      Nat.ceil_lt_add_one (mul_nonneg hp0 (Nat.cast_nonneg _))⟩
  · have hbv : ∀ x ∈ (stratifiedSplit p l).2, x.2 = 0 ∨ x.2 = 1 :=
      fun x hx => hb x (hperm.subset (List.mem_append_right _ hx))
    have hl := labCount_binary_length l hb
    have hv := labCount_binary_length _ hbv
    rw [stratifiedSplit_labCount p l 0 hp1,
        stratifiedSplit_labCount p l 1 hp1] at hv
    have h0a : p * (labCount l 0 : ℚ) ≤ (⌈p * (labCount l 0 : ℚ)⌉₊ : ℚ) :=
      Nat.le_ceil _
    have h1a : p * (labCount l 1 : ℚ) ≤ (⌈p * (labCount l 1 : ℚ)⌉₊ : ℚ) :=
      Nat.le_ceil _
    have h0b : (⌈p * (labCount l 0 : ℚ)⌉₊ : ℚ) < p * (labCount l 0 : ℚ) + 1 :=
      Nat.ceil_lt_add_one (mul_nonneg hp0 (Nat.cast_nonneg _))
    have h1b : (⌈p * (labCount l 1 : ℚ)⌉₊ : ℚ) < p * (labCount l 1 : ℚ) + 1 :=
      Nat.ceil_lt_add_one (mul_nonneg hp0 (Nat.cast_nonneg _))
    rw [hl, hv]
    push_cast
    rw [mul_add]
    constructor
    · linarith
    · linarith

/-- Witness for C7 at `p = 1/2` on the concrete binary-labelled image list. -/
theorem stratifiedSplit_spec_witness :
    ((stratifiedSplit (1/2) metaW.imgs).1 ++
      (stratifiedSplit (1/2) metaW.imgs).2).Perm metaW.imgs ∧
    ((1 : ℚ)/2 * (labCount metaW.imgs 0 : ℚ) ≤
      (labCount (stratifiedSplit (1/2) metaW.imgs).2 0 : ℚ)) ∧
    ((1 : ℚ)/2 * (metaW.imgs.length : ℚ) ≤
      ((stratifiedSplit (1/2) metaW.imgs).2.length : ℚ)) :=
  ⟨(stratifiedSplit_spec (1/2) metaW.imgs (by norm_num) (by norm_num)).1,
   ((stratifiedSplit_spec (1/2) metaW.imgs (by norm_num) (by norm_num)).2.1 0).1,
   ((stratifiedSplit_spec (1/2) metaW.imgs (by norm_num) (by norm_num)).2.2
     (by decide)).1⟩

end DmResnetTrain
